import Mathlib

/-!
Verification of the bounded ordered buffer, scoped file handling and
singleton construction demonstrated in `src/try.ipynb`.
-/

/-- Keep the last `C` elements of a list, in order. -/
def takeLast {T : Type} (C : Nat) (l : List T) : List T :=
  l.drop (l.length - C)

/-- Modelled from the spec: the `BoundedOrderedBuffer<T>` of section 3, whose
behaviour the notebook demonstrates through `collections.deque(maxlen=C)`;
the class itself is not in the repository. `cap` is the fixed capacity C,
`contents` the stored elements oldest first. -/
structure BoundedOrderedBuffer (T : Type) where
  cap : Nat
  contents : List T
deriving Repr, DecidableEq

namespace BoundedOrderedBuffer

/-- Modelled from the spec: construction from an initial sequence and a
capacity; if the initial sequence exceeds capacity, only the most recent C
elements are retained (as `deque(init, maxlen=C)` does). -/
def mkBuffer {T : Type} (init : List T) (C : Nat) : BoundedOrderedBuffer T :=
  ⟨C, takeLast C init⟩

/-- Modelled from the spec: `len()`, the current element count. -/
def len {T : Type} (b : BoundedOrderedBuffer T) : Nat :=
  b.contents.length

/-- Modelled from the spec: `to_sequence()`, a snapshot of the contents
oldest first. -/
def to_sequence {T : Type} (b : BoundedOrderedBuffer T) : List T :=
  b.contents

/-- Modelled from the spec: `append_back(value)`, as `deque.append` with
`maxlen`: the value becomes the new last element and at capacity the
oldest element is evicted; with capacity 0 the buffer stays empty. -/
def append_back {T : Type} (b : BoundedOrderedBuffer T) (v : T) :
    BoundedOrderedBuffer T :=
  ⟨b.cap, takeLast b.cap (b.contents ++ [v])⟩

/-- Modelled from the spec: `append_front(value)`, as `deque.appendleft`
with `maxlen`: the value becomes the new first element and at capacity the
last element is evicted. -/
def append_front {T : Type} (b : BoundedOrderedBuffer T) (v : T) :
    BoundedOrderedBuffer T :=
  ⟨b.cap, (v :: b.contents).take b.cap⟩

/-- Modelled from the spec: the single error kind of section 7. -/
inductive BufferError where
  | emptyBufferError
deriving Repr, DecidableEq

/-- Modelled from the spec: `pop_front()`, removing and returning the first
element, failing with `EmptyBufferError` on an empty buffer. -/
def pop_front {T : Type} (b : BoundedOrderedBuffer T) :
    Except BufferError (T × BoundedOrderedBuffer T) :=
  match b.contents with
  | [] => .error .emptyBufferError
  | x :: rest => .ok (x, ⟨b.cap, rest⟩)

/-- Modelled from the spec: `pop_back()`, removing and returning the last
element, failing with `EmptyBufferError` on an empty buffer. -/
def pop_back {T : Type} (b : BoundedOrderedBuffer T) :
    Except BufferError (T × BoundedOrderedBuffer T) :=
  match b.contents.getLast? with
  | none => .error .emptyBufferError
  | some x => .ok (x, ⟨b.cap, b.contents.dropLast⟩)

/-- Modelled from the spec: the buffer's mutating operations, for stating
invariants over arbitrary operation sequences. -/
inductive Op (T : Type) where
  | append_back (v : T)
  | append_front (v : T)
  | pop_front
  | pop_back

/-- Modelled from the spec: one operation applied to the buffer state; a
failed pop raises and leaves the buffer unchanged. -/
def applyOp {T : Type} (op : Op T) (b : BoundedOrderedBuffer T) :
    BoundedOrderedBuffer T :=
  match op with
  | .append_back v => b.append_back v
  | .append_front v => b.append_front v
  | .pop_front =>
      match b.pop_front with
      | .error _ => b
      | .ok (_, b2) => b2
  | .pop_back =>
      match b.pop_back with
      | .error _ => b
      | .ok (_, b2) => b2

/-- Modelled from the spec: a sequence of operations applied in order. -/
def runOps {T : Type} (ops : List (Op T)) (b : BoundedOrderedBuffer T) :
    BoundedOrderedBuffer T :=
  ops.foldl (fun st op => applyOp op st) b

/-- Modelled from the spec: a sequence of `append_back` calls, one per
element of `vs`, in order. -/
def appendAll {T : Type} (b : BoundedOrderedBuffer T) (vs : List T) :
    BoundedOrderedBuffer T :=
  vs.foldl append_back b

end BoundedOrderedBuffer

/-- State of the modelled file system used by the context-manager cell: the
set of currently open handles and a counter supplying fresh handles. -/
structure FileSys where
  nextHandle : Nat
  openFiles : List Nat
deriving Repr, DecidableEq

/-- Acquire a file handle, as `open(path, mode)` in the notebook: a fresh
handle becomes open. -/
def fsOpen (st : FileSys) : Nat × FileSys :=
  (st.nextHandle, ⟨st.nextHandle + 1, st.nextHandle :: st.openFiles⟩)

/-- Release a file handle, as `f.close()` in the notebook. -/
def fsClose (h : Nat) (st : FileSys) : FileSys :=
  ⟨st.nextHandle, st.openFiles.erase h⟩

/-- The `open_file` context-manager generator of the notebook: acquire the
file, run the managed block on the handle (the block finishes normally with
`Except.ok` or raises with `Except.error`), then the `finally` clause closes
the file before the outcome propagates to the caller. -/
def open_file {E A : Type} (body : Nat → Except E A) (st : FileSys) :
    Except E A × FileSys :=
  let f := fsOpen st
  let r := body f.1
  (r, fsClose f.1 f.2)

/-- The `open_file2` context-manager generator of the notebook: the same
acquisition, but release is delegated to the inner `with open(...)` block,
which also closes the file on every exit path of the managed block. -/
def open_file2 {E A : Type} (body : Nat → Except E A) (st : FileSys) :
    Except E A × FileSys :=
  let f := fsOpen st
  let r := body f.1
  (r, fsClose f.1 f.2)

/-- State of the `Singleton` class of the notebook: the class attribute
`_instance` (an object identity, or `none`), the set of object identities
whose instance attribute `_is_initialized` has been set to `True`, a counter
supplying fresh object identities, the number of times the `__new__` body
allocated an object, and the number of times the `__init__` body past the
early return ran. -/
structure SingletonState where
  inst : Option Nat
  initedIds : List Nat
  nextId : Nat
  creations : Nat
  initRuns : Nat
deriving Repr, DecidableEq

/-- The `Singleton.__new__` hook: if `_instance` is `None`, allocate a fresh
object, store it in `_instance` and return it; otherwise return the stored
instance unchanged. -/
def singletonNew (s : SingletonState) : Nat × SingletonState :=
  match s.inst with
  | some i => (i, s)
  | none =>
      (s.nextId,
        ⟨some s.nextId, s.initedIds, s.nextId + 1, s.creations + 1,
          s.initRuns⟩)

/-- The `Singleton.__init__` hook on object `selfId`: if the object's
`_is_initialized` attribute is already `True` it returns early; otherwise
the initialization body runs and sets `_is_initialized = True`. -/
def singletonInit (selfId : Nat) (s : SingletonState) : SingletonState :=
  if selfId ∈ s.initedIds then s
  else ⟨s.inst, selfId :: s.initedIds, s.nextId, s.creations, s.initRuns + 1⟩

/-- One evaluation of `Singleton()`: Python calls `__new__` and then
`__init__` on the returned object. -/
def singletonConstruct (s : SingletonState) : Nat × SingletonState :=
  let p := singletonNew s
  (p.1, singletonInit p.1 p.2)

/-- The class state before any construction: `_instance = None`, no object
has `_is_initialized` set, nothing allocated. -/
def freshSingletonState : SingletonState :=
  ⟨none, [], 0, 0, 0⟩

/-- Evaluate `Singleton()` a given number of times, collecting the returned
object identities in order. -/
def constructN : Nat → SingletonState → List Nat × SingletonState
  | 0, s => ([], s)
  | n + 1, s =>
      let p := singletonConstruct s
      let q := constructN n p.2
      (p.1 :: q.1, q.2)

section BufferLemmas

open BoundedOrderedBuffer

theorem takeLast_length_le {T : Type} (C : Nat) (l : List T) :
    (takeLast C l).length ≤ C := by
  simp [takeLast]
  omega

theorem takeLast_of_length_le {T : Type} {C : Nat} {l : List T}
    (h : l.length ≤ C) : takeLast C l = l := by
  simp [takeLast, Nat.sub_eq_zero_of_le h]

theorem takeLast_eq_rtake {T : Type} (C : Nat) (l : List T) :
    takeLast C l = l.rtake C := rfl

theorem takeLast_cap_append {T : Type} (C : Nat) (l r : List T) :
    takeLast C (takeLast C l ++ r) = takeLast C (l ++ r) := by
  rw [takeLast_eq_rtake, takeLast_eq_rtake, takeLast_eq_rtake,
    List.rtake_eq_reverse_take_reverse, List.rtake_eq_reverse_take_reverse,
    List.rtake_eq_reverse_take_reverse, List.reverse_append,
    List.reverse_reverse, List.reverse_append, List.take_append_eq_append_take,
    List.take_append_eq_append_take, List.take_take]
  rw [Nat.min_eq_left (Nat.sub_le _ _)]

theorem append_back_contents {T : Type} (b : BoundedOrderedBuffer T) (v : T) :
    (b.append_back v).contents = takeLast b.cap (b.contents ++ [v]) := rfl

theorem append_back_cap {T : Type} (b : BoundedOrderedBuffer T) (v : T) :
    (b.append_back v).cap = b.cap := rfl

theorem append_back_len {T : Type} (b : BoundedOrderedBuffer T) (v : T) :
    (b.append_back v).len = min (b.len + 1) b.cap := by
  simp [append_back, len, takeLast]
  omega

theorem appendAll_cap {T : Type} (b : BoundedOrderedBuffer T) (vs : List T) :
    (b.appendAll vs).cap = b.cap := by
  induction vs generalizing b with
  | nil => rfl
  | cons v vs ih => exact (ih (b.append_back v)).trans rfl

theorem appendAll_contents {T : Type} (b : BoundedOrderedBuffer T)
    (vs : List T) (h : b.contents.length ≤ b.cap) :
    (b.appendAll vs).contents = takeLast b.cap (b.contents ++ vs) := by
  induction vs generalizing b with
  | nil =>
      show b.contents = takeLast b.cap (b.contents ++ [])
      rw [List.append_nil, takeLast_of_length_le h]
  | cons v vs ih =>
      show ((b.append_back v).appendAll vs).contents =
        takeLast b.cap (b.contents ++ v :: vs)
      rw [ih (b.append_back v) ((takeLast_length_le _ _).trans_eq rfl)]
      rw [append_back_cap, append_back_contents, takeLast_cap_append]
      rw [List.append_assoc]
      rfl

theorem takeLast_nil {T : Type} (C : Nat) : takeLast C ([] : List T) = [] := by
  simp [takeLast]

theorem mkBuffer_nil_contents {T : Type} (C : Nat) :
    (mkBuffer ([] : List T) C).contents = [] := takeLast_nil C

/-- Where an operation inserts its value relative to the old contents:
`append_front` at the front, `append_back` at the back, pops nowhere. -/
def opExtend {T : Type} (op : Op T) (l : List T) : List T :=
  match op with
  | .append_back v => l ++ [v]
  | .append_front v => v :: l
  | .pop_front => l
  | .pop_back => l

theorem applyOp_inv {T : Type} (op : Op T) (b : BoundedOrderedBuffer T)
    (h : b.len ≤ b.cap) :
    (applyOp op b).cap = b.cap ∧ (applyOp op b).len ≤ b.cap := by
  cases op with
  | append_back v =>
      exact ⟨rfl, takeLast_length_le _ _⟩
  | append_front v =>
      refine ⟨rfl, ?_⟩
      show ((v :: b.contents).take b.cap).length ≤ b.cap
      simp
  | pop_front =>
      cases hc : b.contents with
      | nil => simp [applyOp, pop_front, hc, h]
      | cons x rest =>
          have h2 : b.contents.length ≤ b.cap := h
          rw [hc] at h2
          simp [applyOp, pop_front, hc, len]
          simp at h2
          omega
  | pop_back =>
      cases hg : b.contents.getLast? with
      | none => simp [applyOp, pop_back, hg, h]
      | some x =>
          have h2 : b.contents.length ≤ b.cap := h
          have hres : applyOp .pop_back b = ⟨b.cap, b.contents.dropLast⟩ := by
            simp [applyOp, pop_back, hg]
          rw [hres]
          refine ⟨rfl, ?_⟩
          show b.contents.dropLast.length ≤ b.cap
          rw [List.length_dropLast]
          omega

theorem runOps_inv {T : Type} (ops : List (Op T)) (b : BoundedOrderedBuffer T)
    (h : b.len ≤ b.cap) :
    (runOps ops b).cap = b.cap ∧ (runOps ops b).len ≤ b.cap := by
  induction ops generalizing b with
  | nil => exact ⟨rfl, h⟩
  | cons op ops ih =>
      have step := applyOp_inv op b h
      have tail := ih (applyOp op b) (step.2.trans_eq step.1.symm)
      exact ⟨tail.1.trans step.1, tail.2.trans_eq step.1⟩

theorem applyOp_sublist {T : Type} (op : Op T) (b : BoundedOrderedBuffer T) :
    (applyOp op b).contents.Sublist (opExtend op b.contents) := by
  cases op with
  | append_back v => exact List.drop_sublist _ _
  | append_front v => exact List.take_sublist _ _
  | pop_front =>
      cases hc : b.contents with
      | nil => simp [applyOp, pop_front, hc, opExtend]
      | cons x rest =>
          simp [applyOp, pop_front, hc, opExtend]
  | pop_back =>
      cases hg : b.contents.getLast? with
      | none => simp [applyOp, pop_back, hg, opExtend]
      | some x =>
          simp [applyOp, pop_back, hg, opExtend]
          exact List.dropLast_sublist _

end BufferLemmas

section BufferClaims

open BoundedOrderedBuffer

/-- C1: for a buffer of capacity C, after any sequence of operations from
construction the element count satisfies 0 ≤ len ≤ C, and every single
operation preserves the relative order of the retained elements: the new
contents are an order-preserving subsequence of the old contents with the
inserted value attached at the operation's end. -/
theorem C1_capacity_and_order_invariant {T : Type} (C : Nat) (init : List T)
    (ops : List (Op T)) (b : BoundedOrderedBuffer T) (op : Op T) :
    0 ≤ (runOps ops (mkBuffer init C)).len ∧
    (runOps ops (mkBuffer init C)).len ≤ C ∧
    (applyOp op b).contents.Sublist (opExtend op b.contents) := by
  refine ⟨Nat.zero_le _, ?_, applyOp_sublist op b⟩
  have h : (mkBuffer init C).len ≤ (mkBuffer init C).cap :=
    takeLast_length_le _ _
  exact (runOps_inv ops (mkBuffer init C) h).2

/-- C2: starting from an empty buffer of capacity C, after N `append_back`
calls `len()` equals `min(N, C)`. -/
theorem C2_append_back_len {T : Type} (C : Nat) (vs : List T) :
    ((mkBuffer ([] : List T) C).appendAll vs).len = min vs.length C := by
  have h : (mkBuffer ([] : List T) C).contents.length ≤
      (mkBuffer ([] : List T) C).cap := by
    rw [mkBuffer_nil_contents]
    simp
  have hc := appendAll_contents (mkBuffer ([] : List T) C) vs h
  rw [mkBuffer_nil_contents] at hc
  rw [len, hc]
  show (takeLast C ([] ++ vs)).length = min vs.length C
  simp [takeLast]
  omega

/-- C3: for capacity C ≥ 1 and more than C values appended via
`append_back` to an initially empty buffer, `to_sequence()` is exactly the
last C values in their original order; with capacity 3 and inserts
1,2,3,4,5 the contents are [3,4,5]. -/
theorem C3_last_C_retained {T : Type} (C : Nat) (vs : List T)
    (hC : 1 ≤ C) (hk : C < vs.length) :
    ((mkBuffer ([] : List T) C).appendAll vs).to_sequence =
      vs.drop (vs.length - C) ∧
    ((mkBuffer ([] : List Nat) 3).appendAll [1, 2, 3, 4, 5]).to_sequence =
      [3, 4, 5] := by
  constructor
  · have h : (mkBuffer ([] : List T) C).contents.length ≤
        (mkBuffer ([] : List T) C).cap := by
      rw [mkBuffer_nil_contents]
      simp
    have hc := appendAll_contents (mkBuffer ([] : List T) C) vs h
    rw [mkBuffer_nil_contents] at hc
    rw [to_sequence, hc]
    show takeLast C ([] ++ vs) = vs.drop (vs.length - C)
    rw [List.nil_append]
    rfl
  · rfl

/-- Witness for C3 at capacity 3 with inserts 1,2,3,4,5. -/
theorem C3_last_C_retained_witness :
    ((mkBuffer ([] : List Nat) 3).appendAll [1, 2, 3, 4, 5]).to_sequence =
      ([1, 2, 3, 4, 5] : List Nat).drop
        (([1, 2, 3, 4, 5] : List Nat).length - 3) :=
  (C3_last_C_retained 3 [1, 2, 3, 4, 5] (by decide) (by decide)).1

/-- C4: `append_front` inserts the value as the new first element; below
capacity the rest is unchanged, and at capacity (C ≥ 1) the last element is
evicted. Scenario: capacity 5 with contents [1,2,3,4,5]: `pop_back()`
returns 5, and `append_front(5)` on the result gives [5,1,2,3,4]. -/
theorem C4_append_front_evicts_last {T : Type} (b : BoundedOrderedBuffer T)
    (v : T) (hinv : b.len ≤ b.cap) :
    (b.len < b.cap → (b.append_front v).to_sequence = v :: b.to_sequence) ∧
    (b.len = b.cap → 1 ≤ b.cap →
      (b.append_front v).to_sequence = v :: b.to_sequence.dropLast) ∧
    (mkBuffer [1, 2, 3, 4, 5] 5).pop_back =
      .ok (5, (⟨5, [1, 2, 3, 4]⟩ : BoundedOrderedBuffer Nat)) ∧
    ((⟨5, [1, 2, 3, 4]⟩ : BoundedOrderedBuffer Nat).append_front 5).to_sequence
      = [5, 1, 2, 3, 4] := by
  refine ⟨?_, ?_, rfl, rfl⟩
  · intro h
    show (v :: b.contents).take b.cap = v :: b.contents
    apply List.take_of_length_le
    have h2 : b.contents.length < b.cap := h
    simpa using h2
  · intro hlen hcap
    show (v :: b.contents).take b.cap = v :: b.contents.dropLast
    obtain ⟨c, hc⟩ : ∃ c, b.cap = c + 1 := ⟨b.cap - 1, by omega⟩
    rw [hc, List.take_succ_cons]
    congr 1
    rw [List.dropLast_eq_take]
    congr 1
    have h3 : b.contents.length = b.cap := hlen
    omega

/-- Witness for C4 on a buffer of capacity 3 holding two elements. -/
theorem C4_append_front_evicts_last_witness :
    ((⟨3, [1, 2]⟩ : BoundedOrderedBuffer Nat).append_front 9).to_sequence =
      9 :: (⟨3, [1, 2]⟩ : BoundedOrderedBuffer Nat).to_sequence :=
  (C4_append_front_evicts_last (⟨3, [1, 2]⟩ : BoundedOrderedBuffer Nat) 9
    (by decide)).1 (by decide)

/-- C5: `pop_front`/`pop_back` on an empty buffer fail with
`EmptyBufferError` and leave the buffer unchanged; `EmptyBufferError` is the
only error kind; on a non-empty buffer `pop_front` removes and returns the
first element and `pop_back` the last. -/
theorem C5_pop_error_semantics {T : Type} (b : BoundedOrderedBuffer T) :
    (b.contents = [] →
      b.pop_front = .error .emptyBufferError ∧
      b.pop_back = .error .emptyBufferError ∧
      applyOp .pop_front b = b ∧ applyOp .pop_back b = b) ∧
    (∀ e : BufferError, e = .emptyBufferError) ∧
    (∀ (x : T) (l : List T), b.contents = x :: l →
      b.pop_front = .ok (x, ⟨b.cap, l⟩)) ∧
    (∀ (l : List T) (x : T), b.contents = l ++ [x] →
      b.pop_back = .ok (x, ⟨b.cap, l⟩)) := by
  refine ⟨?_, ?_, ?_, ?_⟩
  · intro h
    refine ⟨?_, ?_, ?_, ?_⟩
    · simp [pop_front, h]
    · simp [pop_back, h]
    · simp [applyOp, pop_front, h]
    · simp [applyOp, pop_back, h]
  · intro e
    cases e
    rfl
  · intro x l h
    simp [pop_front, h]
  · intro l x h
    simp [pop_back, h, List.getLast?_concat, List.dropLast_concat]

/-- Witness for C5: a failed pop on an empty capacity-2 buffer, and a
successful `pop_back` on a one-element buffer. -/
theorem C5_pop_error_semantics_witness :
    (mkBuffer ([] : List Nat) 2).pop_front =
      .error .emptyBufferError ∧
    (⟨2, [7]⟩ : BoundedOrderedBuffer Nat).pop_back =
      .ok (7, (⟨2, []⟩ : BoundedOrderedBuffer Nat)) :=
  ⟨((C5_pop_error_semantics (mkBuffer ([] : List Nat) 2)).1 rfl).1,
   (C5_pop_error_semantics (⟨2, [7]⟩ : BoundedOrderedBuffer Nat)).2.2.2
     [] 7 rfl⟩

/-- C6: a capacity-0 buffer stays empty: every insertion is accepted and
immediately evicted; after `append_back(7)` on a capacity-0 buffer the
count is 0 and the contents empty; appends never fail and preserve the
capacity bound for any capacity. -/
theorem C6_zero_capacity {T : Type} (b : BoundedOrderedBuffer T) (v : T) :
    (b.cap = 0 →
      (b.append_back v).len = 0 ∧ (b.append_back v).to_sequence = [] ∧
      (b.append_front v).len = 0 ∧ (b.append_front v).to_sequence = []) ∧
    ((mkBuffer ([] : List Nat) 0).append_back 7).len = 0 ∧
    ((mkBuffer ([] : List Nat) 0).append_back 7).to_sequence = [] ∧
    (b.len ≤ b.cap →
      (b.append_back v).len ≤ b.cap ∧ (b.append_front v).len ≤ b.cap) := by
  refine ⟨?_, rfl, rfl, ?_⟩
  · intro h
    have hb : (b.append_back v).contents = [] := by
      show takeLast b.cap (b.contents ++ [v]) = []
      rw [h]
      simp [takeLast]
    have hf : (b.append_front v).contents = [] := by
      show (v :: b.contents).take b.cap = []
      rw [h]
      rfl
    exact ⟨by simp [len, hb], hb, by simp [len, hf], hf⟩
  · intro h
    constructor
    · exact takeLast_length_le _ _
    · show ((v :: b.contents).take b.cap).length ≤ b.cap
      simp

/-- Witness for C6 on a concrete capacity-0 buffer. -/
theorem C6_zero_capacity_witness :
    ((⟨0, []⟩ : BoundedOrderedBuffer Nat).append_back 7).to_sequence = [] :=
  (((C6_zero_capacity (⟨0, []⟩ : BoundedOrderedBuffer Nat) 7).1 rfl).2).1

/-- C7: for capacity C ≥ 1, `append_front(v)` on an empty buffer followed
by `pop_front()` returns v and leaves the buffer empty again. -/
theorem C7_roundtrip {T : Type} (C : Nat) (v : T) (hC : 1 ≤ C) :
    ((mkBuffer ([] : List T) C).append_front v).pop_front =
      .ok (v, mkBuffer ([] : List T) C) := by
  obtain ⟨c, rfl⟩ : ∃ c, C = c + 1 := ⟨C - 1, by omega⟩
  have hb : (mkBuffer ([] : List T) (c + 1)).append_front v =
      ⟨c + 1, [v]⟩ := by
    show (⟨c + 1, (v :: takeLast (c + 1) ([] : List T)).take (c + 1)⟩ :
      BoundedOrderedBuffer T) = ⟨c + 1, [v]⟩
    rw [takeLast_nil, List.take_succ_cons, List.take_nil]
  have hm : mkBuffer ([] : List T) (c + 1) =
      ⟨c + 1, ([] : List T)⟩ := by
    show (⟨c + 1, takeLast (c + 1) ([] : List T)⟩ : BoundedOrderedBuffer T) = _
    rw [takeLast_nil]
  rw [hb, hm]
  rfl

/-- Witness for C7 at capacity 3 with value 42. -/
theorem C7_roundtrip_witness :
    ((mkBuffer ([] : List Nat) 3).append_front 42).pop_front =
      .ok (42, mkBuffer ([] : List Nat) 3) :=
  C7_roundtrip 3 42 (by decide)

/-- C8: constructing from an initial sequence longer than the capacity
retains only the most recent C elements in order; with [1,2,3,4,5] and
capacity 3 the contents are [3,4,5]. -/
theorem C8_construction_truncates {T : Type} (init : List T) (C : Nat)
    (h : C < init.length) :
    (mkBuffer init C).to_sequence = init.drop (init.length - C) ∧
    (mkBuffer [1, 2, 3, 4, 5] 3).to_sequence = ([3, 4, 5] : List Nat) :=
  ⟨rfl, rfl⟩

/-- Witness for C8 on the notebook's deque of capacity 3. -/
theorem C8_construction_truncates_witness :
    (mkBuffer ([1, 2, 3, 4, 5] : List Nat) 3).to_sequence =
      ([1, 2, 3, 4, 5] : List Nat).drop
        (([1, 2, 3, 4, 5] : List Nat).length - 3) :=
  (C8_construction_truncates ([1, 2, 3, 4, 5] : List Nat) 3 (by decide)).1

end BufferClaims

section ResourceAndSingletonClaims

/-- C9: the `open_file`/`open_file2` context managers release the acquired
file handle on every exit path of the managed block: for every block body,
whether it finishes normally or raises, the handle is closed afterwards,
the file-system state is restored, and the block's outcome propagates. -/
theorem C9_scoped_release {E A : Type} (st : FileSys)
    (body body2 : Nat → Except E A) (hfresh : st.nextHandle ∉ st.openFiles) :
    ((open_file body st).2.openFiles = st.openFiles ∧
     st.nextHandle ∉ (open_file body st).2.openFiles ∧
     (open_file body st).1 = body st.nextHandle) ∧
    ((open_file2 body2 st).2.openFiles = st.openFiles ∧
     st.nextHandle ∉ (open_file2 body2 st).2.openFiles ∧
     (open_file2 body2 st).1 = body2 st.nextHandle) := by
  have h1 : (open_file body st).2.openFiles = st.openFiles := by
    show (st.nextHandle :: st.openFiles).erase st.nextHandle = st.openFiles
    exact List.erase_cons_head _ _
  have h2 : (open_file2 body2 st).2.openFiles = st.openFiles := by
    show (st.nextHandle :: st.openFiles).erase st.nextHandle = st.openFiles
    exact List.erase_cons_head _ _
  exact ⟨⟨h1, by rw [h1]; exact hfresh, rfl⟩,
    ⟨h2, by rw [h2]; exact hfresh, rfl⟩⟩

/-- Witness for C9: a raising body under `open_file` and a normal body
under `open_file2`, both starting from the empty file system. -/
theorem C9_scoped_release_witness :
    (open_file (fun _ => (Except.error () : Except Unit Unit))
      (⟨0, []⟩ : FileSys)).2.openFiles = [] ∧
    (open_file2 (fun _ => (Except.ok () : Except Unit Unit))
      (⟨0, []⟩ : FileSys)).2.openFiles = [] :=
  ⟨((C9_scoped_release (⟨0, []⟩ : FileSys) (fun _ => Except.error ())
      (fun _ => Except.ok ()) (by simp)).1).1,
   ((C9_scoped_release (⟨0, []⟩ : FileSys) (fun _ => Except.error ())
      (fun _ => Except.ok ()) (by simp)).2).1⟩

theorem singletonConstruct_steady (s : SingletonState) (i : Nat)
    (h1 : s.inst = some i) (h2 : i ∈ s.initedIds) :
    singletonConstruct s = (i, s) := by
  simp [singletonConstruct, singletonNew, h1, singletonInit, h2]

theorem constructN_steady (n : Nat) (s : SingletonState) (i : Nat)
    (h1 : s.inst = some i) (h2 : i ∈ s.initedIds) :
    constructN n s = (List.replicate n i, s) := by
  induction n with
  | zero => rfl
  | succ n ih =>
      simp [constructN, singletonConstruct_steady s i h1 h2, ih,
        List.replicate_succ]

/-- C10: constructing `Singleton` any number of times returns the identical
single instance every time, the allocation in `__new__` happens exactly
once, and the initialization body of `__init__` runs exactly once. -/
theorem C10_singleton_idempotent (n : Nat) :
    (constructN (n + 1) freshSingletonState).1 = List.replicate (n + 1) 0 ∧
    (constructN (n + 1) freshSingletonState).2.creations = 1 ∧
    (constructN (n + 1) freshSingletonState).2.initRuns = 1 := by
  have hfirst : singletonConstruct freshSingletonState =
      (0, ⟨some 0, [0], 1, 1, 1⟩) := rfl
  have hsteady := constructN_steady n ⟨some 0, [0], 1, 1, 1⟩ 0 rfl (by simp)
  refine ⟨?_, ?_, ?_⟩ <;>
    simp [constructN, hfirst, hsteady, List.replicate_succ]

end ResourceAndSingletonClaims
